import Mathlib

/-!
Verification of the SUBDUE core (graph-based substructure discovery) against
its specification.  The C sources (graphops.c, evaluate.c, compress.c,
subops.c, graphmatch.c, discover.c) are shallowly embedded: structs become
Lean structures, ULONG becomes Nat (with Int where intermediate subtraction
matters), double becomes ℝ for description lengths and sub values (ℚ for
match costs/thresholds, which stay rational under the integer edit-cost
model), and the imperative loops become structural recursion.  The
adjacency arrays maintained by AddEdgeToVertices always hold exactly the
indices of the incident edges in edge-array order with self-edges listed
once, so incidence is derived from the edge array.  The incremental
(streaming) mode is out of the specified core and is embedded with
`incremental = false`.  Scratch fields that only support memory management
(refcounts, parent back-pointers, match mappings) are omitted from records
whose behaviour here does not read them.
-/

namespace Subdue


/-- VERTEX_UNMAPPED sentinel (MAX_UNSIGNED_LONG in subdue.h, 64-bit). -/
def VERTEX_UNMAPPED : Nat := 2 ^ 64 - 1

/-- Vertex record: label index, scratch `map` slot, scratch `used` flag
(graphops.c / subdue.h).  The per-vertex edge-index array is derived from
the edge array (see module comment). -/
structure Vertex where
  label : Nat
  map : Nat
  used : Bool
  deriving DecidableEq, Repr, Inhabited

/-- Edge record: endpoints, label index, directedness, scratch `used` flag
(subdue.h).  The incremental-only flags spansIncrement/validPath default
false and are ignored by the core, so they are omitted. -/
structure Edge where
  vertex1 : Nat
  vertex2 : Nat
  label : Nat
  directed : Bool
  used : Bool
  deriving DecidableEq, Repr, Inhabited

/-- Graph: vertex array plus edge array (subdue.h). -/
structure Graph where
  vertices : List Vertex
  edges : List Edge
  deriving DecidableEq, Repr, Inhabited

def Graph.numVertices (g : Graph) : Nat := g.vertices.length

def Graph.numEdges (g : Graph) : Nat := g.edges.length

/-- Read a vertex by index. -/
def Graph.vertex (g : Graph) (v : Nat) : Vertex := g.vertices.getD v default

/-- Read an edge by index. -/
def Graph.edge (g : Graph) (i : Nat) : Edge := g.edges.getD i default

/-- Indices of the edges incident to vertex `v`, in edge-array order: the
contents of vertex `v`'s edge-index array as maintained by
AddEdgeToVertices (graphops.c), self-edges appearing once. -/
def incidentEdges (g : Graph) (v : Nat) : List Nat :=
  (List.range g.numEdges).filter fun i =>
    decide ((g.edge i).vertex1 = v ∨ (g.edge i).vertex2 = v)

/-- The endpoint of `e` opposite to `v` (pattern `if (edge->vertex1 == v1)
v2 = edge->vertex2; else v2 = edge->vertex1;` used throughout evaluate.c). -/
def otherVertex (e : Edge) (v : Nat) : Nat :=
  if e.vertex1 = v then e.vertex2 else e.vertex1

/-- Log2 from evaluate.c: lg on positive numbers, 0 at 0. -/
noncomputable def Log2 (n : Nat) : ℝ :=
  if n = 0 then 0 else Real.logb 2 n

/-- Log2Factorial from evaluate.c: the cached table A satisfies A[0] = A[1] = 0
(main.c) and A[i] = lg i + A[i-1], i.e. A[n] = Σ_{i ≤ n} lg i. -/
noncomputable def Log2Factorial (n : Nat) : ℝ :=
  ∑ i in Finset.range (n + 1), Log2 i

/-- NumUniqueEdges from evaluate.c: the number of distinct vertices `v2`
reached from `v1` by an incident edge that is either directed and outgoing
from `v1`, or undirected with `v2 ≥ v1` (dedup by the `used` marks). -/
def NumUniqueEdges (g : Graph) (v1 : Nat) : Nat :=
  ((((incidentEdges g v1).map g.edge).filter fun e =>
      decide ((e.directed = true ∧ e.vertex1 = v1) ∨
              (e.directed = false ∧ v1 ≤ otherVertex e v1))).map
    fun e => otherVertex e v1).dedup.length

/-- Inner loop of MaxEdgesToSingleVertex (evaluate.c lines 383-416):
for each qualifying incident edge, count it together with the later
incident edges reaching the same opposite vertex that satisfy the inner
test (which reads edge1's directedness in its second disjunct, exactly as
the C does), and take the maximum. -/
def maxEdgesFrom (v1 : Nat) : List Edge → Nat
  | [] => 0
  | e1 :: rest =>
    let v2 := otherVertex e1 v1
    let cnt :=
      if (e1.directed = true ∧ e1.vertex1 = v1) ∨ (e1.directed = false ∧ v1 ≤ v2) then
        1 + rest.countP fun e2 =>
          decide (otherVertex e2 v1 = v2 ∧
            ((e2.directed = true ∧ e2.vertex1 = v1) ∨
             (e1.directed = false ∧ v1 ≤ otherVertex e2 v1)))
      else 0
    max cnt (maxEdgesFrom v1 rest)

/-- MaxEdgesToSingleVertex from evaluate.c: maximum number of edges from
`v1` to a single other vertex (including itself), scanning `v1`'s
adjacency array. -/
def MaxEdgesToSingleVertex (g : Graph) (v1 : Nat) : Nat :=
  maxEdgesFrom v1 ((incidentEdges g v1).map g.edge)

/-- GraphSize from evaluate.c: vertices plus edges. -/
def GraphSize (g : Graph) : Nat := g.numVertices + g.numEdges

/-- MDL from evaluate.c: description length in bits,
vertexBits + rowBits + edgeBits with the running maxima/sums B, K, M
accumulated over all vertices. -/
noncomputable def MDL (g : Graph) (numLabels : Nat) : ℝ :=
  let V := g.numVertices
  let E := g.numEdges
  let vertexBits := Log2 V + V * Log2 numLabels
  let B := (Finset.range V).sup fun v => NumUniqueEdges g v
  let K := ∑ v in Finset.range V, NumUniqueEdges g v
  let M := (Finset.range V).sup fun v => MaxEdgesToSingleVertex g v
  let rowBits :=
    V * Log2Factorial V
      - ∑ v in Finset.range V,
          (Log2Factorial (NumUniqueEdges g v) +
           Log2Factorial (V - NumUniqueEdges g v))
      + (V + 1) * Log2 (B + 1)
  let edgeBits := E * (1 + Log2 numLabels) + (K + 1) * Log2 M
  vertexBits + rowBits + edgeBits

/-- ExternalEdgeBits from evaluate.c: lg |V(S)| per edge incident to a SUB
vertex (the first `numInstances` vertices of the compressed graph), counted
twice for self-edges. -/
noncomputable def ExternalEdgeBits (compressedGraph subGraph : Graph)
    (numInstances : Nat) : ℝ :=
  let log2SubVertices := Log2 subGraph.numVertices
  ((List.range numInstances).map fun v =>
    (((incidentEdges compressedGraph v).map fun i =>
        let e := compressedGraph.edge i
        if e.vertex1 = e.vertex2 then log2SubVertices + log2SubVertices
        else log2SubVertices)).sum).sum

/-- lg C(n,k) evaluated via cached lg-factorials, the way the spec's MDL
formula evaluates combinatorials. -/
noncomputable def Log2Comb (n k : Nat) : ℝ :=
  Log2Factorial n - Log2Factorial k - Log2Factorial (n - k)

/-- The MDL bit-cost formula exactly as the specification (§4.6.2) and
claim C2 state it: `V·(1+lg L) + (V+1)·lg(B+1) + Σ lg C(V,k_i) +
E·(1+lg L) + (K+1)·lg M`, with k_i, B, K, M read off the code's helper
functions and combinatorials evaluated via cached `lg k!`.  Stated for
comparison with the code's `MDL`. -/
noncomputable def MDLSpecFormula (g : Graph) (numLabels : Nat) : ℝ :=
  g.numVertices * (1 + Log2 numLabels)
    + (g.numVertices + 1) *
        Log2 (((Finset.range g.numVertices).sup fun v =>
          NumUniqueEdges g v) + 1)
    + (∑ v in Finset.range g.numVertices,
        Log2Comb g.numVertices (NumUniqueEdges g v))
    + g.numEdges * (1 + Log2 numLabels)
    + ((∑ v in Finset.range g.numVertices, NumUniqueEdges g v) + 1) *
        Log2 ((Finset.range g.numVertices).sup fun v =>
          MaxEdgesToSingleVertex g v)

/-- One-vertex, edgeless graph used to separate `MDL` from the spec's
stated formula. -/
def gC2 : Graph := ⟨[⟨0, VERTEX_UNMAPPED, false⟩], []⟩

/-- Instance (subdue.h): sorted host vertex indices and host edge indices
of one occurrence of a pattern.  The matcher scratch fields (mapping,
minMatchCost, parent back-pointer, refcount) are not read by the
operations verified here and are omitted. -/
structure Instance where
  vertices : List Nat
  edges : List Nat
  deriving DecidableEq, Repr, Inhabited

/-- The sorted-merge loop of InstanceOverlap (subops.c): advance the lower
head until a common vertex is found. -/
def vertexListsOverlap : List Nat → List Nat → Bool
  | [], _ => false
  | _ :: _, [] => false
  | a :: as, b :: bs =>
    if b < a then vertexListsOverlap (a :: as) bs
    else if a = b then true
    else vertexListsOverlap as (b :: bs)
  termination_by l1 l2 => l1.length + l2.length

/-- InstanceOverlap from subops.c: do two instances share a vertex
(vertex arrays assumed increasing)? -/
def InstanceOverlap (i1 i2 : Instance) : Bool :=
  vertexListsOverlap i1.vertices i2.vertices

/-- InstancesOverlap from subops.c: does any pair on the list overlap? -/
def InstancesOverlap : List Instance → Bool
  | [] => false
  | i :: rest => rest.any (fun j => InstanceOverlap i j) || InstancesOverlap rest

/-- Evaluation methods (subdue.h). -/
inductive EvalMethod
  | mdl
  | size
  | setCover
  deriving DecidableEq, Repr

/-- The slice of the Parameters record (subdue.h) read by the evaluator
and compressor, with `incremental = false` (the incremental mode is outside
the specified core). -/
structure Parameters where
  labelListNumLabels : Nat
  posGraph : Graph
  negGraph : Option Graph
  posGraphDL : ℝ
  negGraphDL : ℝ
  numPosEgs : Nat
  numNegEgs : Nat
  posEgsVertexIndices : List Nat
  negEgsVertexIndices : List Nat
  allowInstanceOverlap : Bool
  evalMethod : EvalMethod

/-- The distinct host vertices covered by some instance: the vertices the
first loop of CompressGraph marks `used` (each counted once). -/
def instanceVertexList (insts : List Instance) : List Nat :=
  ((insts.map fun i => i.vertices).flatten).dedup

/-- The distinct host edge indices covered by some instance: the edges the
first loop of CompressGraph marks `used`. -/
def instanceEdgeList (insts : List Instance) : List Nat :=
  ((insts.map fun i => i.edges).flatten).dedup

/-- The 0-based index of the first instance claiming vertex `v`
(CompressGraph assigns `map = instanceNo - 1` at the first marking). -/
def firstClaimant (insts : List Instance) (v : Nat) : Option Nat :=
  insts.findIdx? fun i => decide (v ∈ i.vertices)

/-- The vertex index map CompressGraph leaves on the host graph: instance
vertices map to the SUB vertex of their first claiming instance; uncovered
vertices map to their position after the SUB block (CopyUnmarkedGraph). -/
def compressMap (g : Graph) (insts : List Instance) (v : Nat) : Nat :=
  match firstClaimant insts v with
  | some k => k
  | none =>
      insts.length +
        ((List.range g.numVertices).filter fun w =>
          !decide (w ∈ instanceVertexList insts)).indexOf v

/-- AddOverlapEdge from compress.c: append an undirected OVERLAP edge
between the two SUB vertices unless some accumulated edge already has
these endpoints. -/
def AddOverlapEdge (overlapEdges : List Edge) (s1 s2 lbl : Nat) : List Edge :=
  if overlapEdges.any fun e => e.vertex1 == s1 && e.vertex2 == s2 then
    overlapEdges
  else overlapEdges ++ [⟨s1, s2, lbl, false, false⟩]

/-- AddDuplicateEdges from compress.c: duplicate an external edge at the
shared vertex for the second instance, with the four cases (external
endpoint, internal endpoint, already-processed endpoint and self-edge)
decided from the host `map` values and `used` marks. -/
def AddDuplicateEdges (overlapEdges : List Edge) (e : Edge)
    (mapOf : Nat → Nat) (marked : List Nat) (s1 s2 : Nat) : List Edge :=
  if mapOf e.vertex1 ≠ s1 then
    overlapEdges ++ [⟨mapOf e.vertex1, s2, e.label, e.directed, false⟩]
  else if mapOf e.vertex2 ≠ s1 then
    overlapEdges ++ [⟨s2, mapOf e.vertex2, e.label, e.directed, false⟩]
  else
    let acc1 := overlapEdges ++ [⟨s1, s2, e.label, e.directed, false⟩]
    let acc2 :=
      if !decide (e.vertex1 ∈ marked) || !decide (e.vertex2 ∈ marked) then
        acc1 ++ [⟨s2, s2, e.label, e.directed, false⟩]
      else acc1
    if e.vertex1 = e.vertex2 then
      let acc3 := acc2 ++ [⟨s2, s2, e.label, e.directed, false⟩]
      if e.directed then acc3 ++ [⟨s2, s1, e.label, e.directed, false⟩]
      else acc3
    else acc2

/-- Inner loops of AddOverlapEdges / NumOverlapEdges for one still-marked
vertex `v1` of instance `i1No` against one later instance `i2No`: on a
shared vertex, add the OVERLAP edge and duplicate every external edge
incident to `v1`. -/
def overlapWithInstance (g : Graph) (mapOf : Nat → Nat)
    (instEdges : List Nat) (marked : List Nat) (overlapLbl : Nat)
    (i1No v1 : Nat) (inst2 : Instance) (i2No : Nat)
    (acc : List Edge) : List Edge :=
  inst2.vertices.foldl
    (fun acc v2 =>
      if v1 = v2 then
        let acc := AddOverlapEdge acc i1No i2No overlapLbl
        (incidentEdges g v1).foldl
          (fun acc ei =>
            if !decide (ei ∈ instEdges) then
              AddDuplicateEdges acc (g.edge ei) mapOf marked i1No i2No
            else acc)
          acc
      else acc)
    acc

/-- Scan of all later instances for one vertex `v1` of instance `i1No`. -/
def overlapVertexScan (g : Graph) (mapOf : Nat → Nat) (instEdges : List Nat)
    (marked : List Nat) (overlapLbl : Nat) (i1No v1 : Nat)
    (later : List (Instance × Nat)) (acc : List Edge) : List Edge :=
  later.foldl
    (fun acc p =>
      overlapWithInstance g mapOf instEdges marked overlapLbl i1No v1
        p.1 p.2 acc)
    acc

/-- Per-instance vertex loop of AddOverlapEdges / NumOverlapEdges: each
still-marked (`used = TRUE`) vertex is checked for sharing against all
later instances and then unmarked. -/
def overlapInstanceScan (g : Graph) (mapOf : Nat → Nat)
    (instEdges : List Nat) (overlapLbl : Nat) (i1 : Instance) (i1No : Nat)
    (later : List (Instance × Nat)) (st : List Nat × List Edge) :
    List Nat × List Edge :=
  i1.vertices.foldl
    (fun st v1 =>
      if decide (v1 ∈ st.1) then
        (st.1.filter fun w => w ≠ v1,
         overlapVertexScan g mapOf instEdges st.1 overlapLbl i1No v1 later
           st.2)
      else st)
    st

/-- Outer instance loop of AddOverlapEdges / NumOverlapEdges, threading the
set of still-marked instance vertices and the accumulated edge array. -/
def overlapLoop (g : Graph) (mapOf : Nat → Nat) (instEdges : List Nat)
    (overlapLbl : Nat) :
    List (Instance × Nat) → List Nat → List Edge → List Edge
  | [], _, acc => acc
  | (i1, i1No) :: rest, marked, acc =>
    let st := overlapInstanceScan g mapOf instEdges overlapLbl i1 i1No rest
      (marked, acc)
    overlapLoop g mapOf instEdges overlapLbl rest st.1 st.2

/-- The OVERLAP and duplicate edges produced by AddOverlapEdges (when
`mapOf` is the map CompressGraph just computed) or counted by
NumOverlapEdges (when `mapOf` reads the host graph's stale `map` fields).
Initially every instance vertex is marked. -/
def overlapEdgeList (g : Graph) (mapOf : Nat → Nat) (insts : List Instance)
    (overlapLbl : Nat) : List Edge :=
  overlapLoop g mapOf (instanceEdgeList insts) overlapLbl
    (insts.enum.map fun p => (p.2, p.1)) (instanceVertexList insts) []

/-- CompressGraph from compress.c (non-incremental): one SUB vertex per
instance in list order, uncovered vertices and edges copied with endpoints
remapped through the map left on the host, and, when overlap is allowed,
the OVERLAP/duplicate edges appended. -/
def CompressGraph (g : Graph) (insts : List Instance) (p : Parameters) :
    Graph :=
  let subLabelIndex := p.labelListNumLabels
  let overlapLabelIndex := p.labelListNumLabels + 1
  let instVerts := instanceVertexList insts
  let instEdges := instanceEdgeList insts
  let cmap := compressMap g insts
  let subVertices : List Vertex :=
    List.replicate insts.length ⟨subLabelIndex, VERTEX_UNMAPPED, false⟩
  let copiedVertices : List Vertex :=
    ((List.range g.numVertices).filter fun v =>
      !decide (v ∈ instVerts)).map fun v =>
        ⟨(g.vertex v).label, VERTEX_UNMAPPED, false⟩
  let copiedEdges : List Edge :=
    ((List.range g.numEdges).filter fun ei =>
      !decide (ei ∈ instEdges)).map fun ei =>
        let e := g.edge ei
        ⟨cmap e.vertex1, cmap e.vertex2, e.label, e.directed, false⟩
  if p.allowInstanceOverlap then
    ⟨subVertices ++ copiedVertices,
     copiedEdges ++ overlapEdgeList g cmap insts overlapLabelIndex⟩
  else ⟨subVertices ++ copiedVertices, copiedEdges⟩

/-- NumOverlapEdges from compress.c: the number of OVERLAP and duplicate
edges, computed on the uncompressed graph; the `map` fields it reads are
whatever the host graph currently holds (the bogus overlap label 0 is
never compared). -/
def NumOverlapEdges (g : Graph) (insts : List Instance) : Nat :=
  (overlapEdgeList g (fun v => (g.vertex v).map) insts 0).length

/-- SizeOfCompressedGraph from compress.c (non-incremental), with the
ULONG running size modeled as Int (no wraparound occurs on valid inputs):
one new SUB vertex per instance, minus the marked-unique (overlap) or
per-instance (no overlap) structure, plus the overlap edges. -/
def SizeOfCompressedGraph (g : Graph) (insts : List Instance)
    (p : Parameters) : Int :=
  if p.allowInstanceOverlap then
    (GraphSize g : Int) + insts.length
      - (instanceVertexList insts).length
      - (instanceEdgeList insts).length
      + NumOverlapEdges g insts
  else
    (GraphSize g : Int) +
      (insts.map fun i =>
        1 - (i.vertices.length : Int) - (i.edges.length : Int)).sum

/-- Host with a self-edge on a vertex shared by two instances: labels
A,B,B, an undirected self-edge on vertex 0 and edges 0-1, 0-2; all `map`
fields are VERTEX_UNMAPPED, as AddVertex leaves them on a freshly read
graph. -/
def gOverlapHost : Graph :=
  ⟨[⟨0, VERTEX_UNMAPPED, false⟩, ⟨1, VERTEX_UNMAPPED, false⟩,
    ⟨1, VERTEX_UNMAPPED, false⟩],
   [⟨0, 0, 2, false, false⟩, ⟨0, 1, 3, false, false⟩,
    ⟨0, 2, 3, false, false⟩]⟩

/-- Two instances of the pattern A-B sharing host vertex 0. -/
def instsOverlap : List Instance := [⟨[0, 1], [1]⟩, ⟨[0, 2], [2]⟩]

/-- Parameters with instance overlap allowed. -/
def pOverlap : Parameters :=
  ⟨4, gOverlapHost, none, 0, 0, 1, 0, [0], [], true, EvalMethod.size⟩

/-- Two disjoint A-B path instances in a six-vertex host. -/
def gTwoPaths : Graph :=
  ⟨[⟨0, VERTEX_UNMAPPED, false⟩, ⟨1, VERTEX_UNMAPPED, false⟩,
    ⟨2, VERTEX_UNMAPPED, false⟩, ⟨0, VERTEX_UNMAPPED, false⟩,
    ⟨1, VERTEX_UNMAPPED, false⟩, ⟨2, VERTEX_UNMAPPED, false⟩],
   [⟨0, 1, 5, false, false⟩, ⟨1, 2, 6, false, false⟩,
    ⟨3, 4, 5, false, false⟩, ⟨4, 5, 6, false, false⟩]⟩

def instsTwoPaths : List Instance := [⟨[0, 1], [0]⟩, ⟨[3, 4], [2]⟩]

def pNoOverlap : Parameters :=
  ⟨7, gTwoPaths, none, 0, 0, 1, 0, [0], [], false, EvalMethod.size⟩

/-- Substructure (subdue.h), polymorphic in the type of the `value` field
(a double in C; instantiated at ℝ for the evaluator, and at any linear
order for the purely comparison-driven list operations). -/
structure Substructure (α : Type) where
  definition : Graph
  instances : List Instance
  numInstances : Nat
  negInstances : List Instance
  numNegInstances : Nat
  value : α
  recursive : Bool
  recursiveEdgeLabel : Nat
  numExamples : Nat
  numNegExamples : Nat
  deriving DecidableEq, Repr

/-- AddEdge from graphops.c with `spansIncrement = FALSE`: append the edge
record; the endpoint adjacency arrays are derived (see module comment). -/
def AddEdge (g : Graph) (src dst : Nat) (directed : Bool) (lbl : Nat) :
    Graph :=
  ⟨g.vertices, g.edges ++ [⟨src, dst, lbl, directed, false⟩]⟩

/-- CopyGraph from graphops.c: a deep copy, which in a functional
embedding is the graph itself. -/
def CopyGraph (g : Graph) : Graph := g

/-- ExamplesCovered from evaluate.c (non-incremental, `start = 0`): the
number of examples whose vertex-index range (from its start index to just
before the next example's start, or to the last graph vertex) contains the
first vertex of some instance on the list.  Instances always have at least
one vertex; `headD 0` reads `instance->vertices[0]`. -/
def ExamplesCovered (instanceList : List Instance) (graph : Graph)
    (numEgs : Nat) (egsVertexIndices : List Nat) : Nat :=
  ((List.range numEgs).filter fun i =>
    let egStartVertexIndex := egsVertexIndices.getD i 0
    let egEndVertexIndex :=
      if i < numEgs - 1 then egsVertexIndices.getD (i + 1) 0 - 1
      else graph.numVertices - 1
    decide (∃ inst ∈ instanceList,
      egStartVertexIndex ≤ inst.vertices.headD 0 ∧
      inst.vertices.headD 0 ≤ egEndVertexIndex)).length

/-- PosExamplesCovered from evaluate.c (non-incremental). -/
def PosExamplesCovered (sub : Substructure ℝ) (p : Parameters) : Nat :=
  ExamplesCovered sub.instances p.posGraph p.numPosEgs p.posEgsVertexIndices

/-- NegExamplesCovered from evaluate.c (non-incremental); only called when
a negative graph is present. -/
def NegExamplesCovered (sub : Substructure ℝ) (p : Parameters) : Nat :=
  match p.negGraph with
  | some negGraph =>
      ExamplesCovered sub.negInstances negGraph p.numNegEgs
        p.negEgsVertexIndices
  | none => 0

/-- The label count used for MDL of compressed graphs in EvaluateSub:
one more for the SUB label, and one more again when overlap is allowed and
some instances (positive or negative) overlap. -/
def compressedNumLabels {α : Type} (p : Parameters) (sub : Substructure α) :
    Nat :=
  if p.allowInstanceOverlap = true ∧
      (InstancesOverlap sub.instances = true ∨
       InstancesOverlap sub.negInstances = true) then
    p.labelListNumLabels + 2
  else p.labelListNumLabels + 1

/-- EvaluateSub from evaluate.c (non-incremental): sets numExamples and
numNegExamples, temporarily augments a recursive sub's definition with a
directed self-edge carrying the recursive label, computes the value under
the selected evaluation method, and restores the original definition. -/
noncomputable def EvaluateSub (sub : Substructure ℝ) (p : Parameters) :
    Substructure ℝ :=
  let numExamples := PosExamplesCovered sub p
  let numNegExamples :=
    if p.negGraph.isSome then NegExamplesCovered sub p else 0
  let evalDefinition :=
    if sub.recursive then
      AddEdge (CopyGraph sub.definition) 0 0 true sub.recursiveEdgeLabel
    else sub.definition
  let subValue : ℝ :=
    match p.evalMethod with
    | EvalMethod.mdl =>
      let sizeOfSub := MDL evalDefinition p.labelListNumLabels
      let sizeOfPosGraph := p.posGraphDL
      let compressedPosGraph := CompressGraph p.posGraph sub.instances p
      let numLabels := compressedNumLabels p sub
      let sizeOfCompressedPosGraph :=
        MDL compressedPosGraph numLabels +
          ExternalEdgeBits compressedPosGraph evalDefinition sub.numInstances
      match p.negGraph with
      | none => sizeOfPosGraph / (sizeOfSub + sizeOfCompressedPosGraph)
      | some negGraph =>
        let sizeOfNegGraph := p.negGraphDL
        let compressedNegGraph := CompressGraph negGraph sub.negInstances p
        let sizeOfCompressedNegGraph :=
          MDL compressedNegGraph numLabels +
            ExternalEdgeBits compressedNegGraph evalDefinition
              sub.numNegInstances
        (sizeOfPosGraph + sizeOfNegGraph) /
          (sizeOfSub + sizeOfCompressedPosGraph + sizeOfNegGraph -
            sizeOfCompressedNegGraph)
    | EvalMethod.size =>
      let sizeOfSub : ℝ := GraphSize evalDefinition
      let sizeOfPosGraph : ℝ := GraphSize p.posGraph
      let sizeOfCompressedPosGraph : ℝ :=
        (SizeOfCompressedGraph p.posGraph sub.instances p : ℝ)
      match p.negGraph with
      | none => sizeOfPosGraph / (sizeOfSub + sizeOfCompressedPosGraph)
      | some negGraph =>
        let sizeOfNegGraph : ℝ := GraphSize negGraph
        let sizeOfCompressedNegGraph : ℝ :=
          (SizeOfCompressedGraph negGraph sub.negInstances p : ℝ)
        (sizeOfPosGraph + sizeOfNegGraph) /
          (sizeOfSub + sizeOfCompressedPosGraph + sizeOfNegGraph -
            sizeOfCompressedNegGraph)
    | EvalMethod.setCover =>
      let posEgsCovered := PosExamplesCovered sub p
      let negEgsCovered :=
        if p.negGraph.isSome then NegExamplesCovered sub p else 0
      ((posEgsCovered + (p.numNegEgs - negEgsCovered) : Nat) : ℝ) /
        ((p.numPosEgs + p.numNegEgs : Nat) : ℝ)
  { sub with
    value := subValue
    numExamples := numExamples
    numNegExamples := numNegExamples }

/-- Two same-label vertices, no edges: positive graph of the C1 example. -/
def gPosPair : Graph :=
  ⟨[⟨0, VERTEX_UNMAPPED, false⟩, ⟨0, VERTEX_UNMAPPED, false⟩], []⟩

/-- Negative graph of the C1 example (also two label-0 vertices). -/
def gNegPair : Graph :=
  ⟨[⟨0, VERTEX_UNMAPPED, false⟩, ⟨0, VERTEX_UNMAPPED, false⟩], []⟩

/-- One-vertex pattern definition of the C1 example. -/
def subDefOne : Graph := ⟨[⟨0, VERTEX_UNMAPPED, false⟩], []⟩

/-- Substructure with two disjoint one-vertex positive instances and no
negative instances. -/
def subC1 : Substructure ℝ :=
  ⟨subDefOne, [⟨[0], []⟩, ⟨[1], []⟩], 2, [], 0, 0, false, 0, 0, 0⟩

/-- Parameters for the C1 example: one label, MDL method, negative graph
present, description lengths cached as `DL(G_pos) = DL(G_neg) = 1` (their
true MDL values, see `MDL_gPosPair`). -/
def pC1 : Parameters :=
  ⟨1, gPosPair, some gNegPair, 1, 1, 1, 1, [0], [0], false, EvalMethod.mdl⟩

/-- The compressed positive graph of the C1 example: two SUB vertices. -/
def gSubPair : Graph :=
  ⟨[⟨1, VERTEX_UNMAPPED, false⟩, ⟨1, VERTEX_UNMAPPED, false⟩], []⟩

/-- Parameters for the SET_COVER witness: two positive examples (vertex
ranges {0} and {1}), one negative example. -/
def pSetCover : Parameters :=
  ⟨1, gPosPair, some gNegPair, 1, 1, 2, 1, [0, 1], [0], false,
   EvalMethod.setCover⟩

/-- A recursive one-vertex substructure for the C9 witness. -/
def subRec : Substructure ℝ :=
  ⟨subDefOne, [⟨[0], []⟩, ⟨[1], []⟩], 2, [], 0, 0, true, 0, 0, 0⟩

/-- GraphMatch from graphmatch.c, with InexactGraphMatch abstracted as a
cost oracle `inexact` (invoked with the larger graph first, exactly as the
code calls it) and the double costs and thresholds as ℚ, which is exact
for the integer edit-cost model: the exact-match fast path rejects
size-mismatched graphs at threshold 0 before the matcher runs, and
otherwise the match is accepted unless the computed cost exceeds the
threshold (`if (cost > threshold) return FALSE; return TRUE;`). -/
def GraphMatch (inexact : Graph → Graph → ℚ) (g1 g2 : Graph)
    (threshold : ℚ) : Bool :=
  if threshold = 0 ∧
      (g1.numVertices ≠ g2.numVertices ∨ g1.numEdges ≠ g2.numEdges) then
    false
  else
    let cost :=
      if g1.numVertices < g2.numVertices then inexact g2 g1
      else inexact g1 g2
    !(decide (cost > threshold))

/-- The duplicate scan of SubListInsert (subops.c lines 122-135): walk the
prefix of entries whose value is ≥ the new sub's value and report a
duplicate when an equal-valued entry's definition matches at threshold 0
(the label list consumed by GraphMatch is absorbed into the oracle). -/
def subListDupCheck {α : Type} [LinearOrder α]
    (inexact : Graph → Graph → ℚ) (s : Substructure α) :
    List (Substructure α) → Bool
  | [] => false
  | x :: xs =>
    if x.value ≥ s.value then
      if x.value = s.value ∧
          GraphMatch inexact x.definition s.definition 0 = true then true
      else subListDupCheck inexact s xs
    else false

/-- The insertion-and-truncation loop of SubListInsert (subops.c lines
138-190).  The list argument is the remainder from `subIndex` on; the
new sub is spliced in before the first smaller-valued node (or appended
after the last node), and the numSubs / numDiffVals counters truncate the
rest of the list as soon as a maximum is exceeded. -/
def subListInsertLoop {α : Type} [LinearOrder α] (s : Substructure α)
    (maxN : Nat) (valueBased : Bool) :
    List (Substructure α) → Bool → Nat → Nat → Option α →
      List (Substructure α)
  | [], _, _, _, _ => []
  | x :: xs, inserted, numSubs, numDiffVals, prev =>
    if h1 : inserted = false ∧ x.value < s.value then
      -- newSubListNode spliced in before x; subIndex becomes the new node
      let numSubs2 := numSubs + 1
      let numDiffVals2 :=
        match prev with
        | none => 1
        | some pv => if pv ≠ s.value then numDiffVals + 1 else numDiffVals
      if maxN > 0 ∧ ((valueBased = true ∧ numDiffVals2 > maxN) ∨
          (valueBased = false ∧ numSubs2 > maxN)) then []
      else s :: subListInsertLoop s maxN valueBased (x :: xs) true numSubs2
        numDiffVals2 (some s.value)
    else if h2 : inserted = false ∧ xs = [] then
      -- special case: append the new node after the final node x
      let numSubs2 := numSubs + 1
      let numDiffVals2 :=
        match prev with
        | none => 1
        | some pv => if pv ≠ x.value then numDiffVals + 1 else numDiffVals
      if maxN > 0 ∧ ((valueBased = true ∧ numDiffVals2 > maxN) ∨
          (valueBased = false ∧ numSubs2 > maxN)) then []
      else x :: subListInsertLoop s maxN valueBased [s] true numSubs2
        numDiffVals2 (some x.value)
    else
      let numSubs2 := numSubs + 1
      let numDiffVals2 :=
        match prev with
        | none => 1
        | some pv => if pv ≠ x.value then numDiffVals + 1 else numDiffVals
      if maxN > 0 ∧ ((valueBased = true ∧ numDiffVals2 > maxN) ∨
          (valueBased = false ∧ numSubs2 > maxN)) then []
      else x :: subListInsertLoop s maxN valueBased xs inserted numSubs2
        numDiffVals2 (some x.value)
  termination_by l inserted _ _ _ =>
    2 * l.length + (if inserted = false then 1 else 0)
  decreasing_by
  · simp [h1.1]
  · simp [h2.1, h2.2]
  · cases inserted <;> simp

/-- SubListInsert from subops.c: an empty list takes the new sub without
bound checks; a duplicate (equal value, definitions matching at threshold
0) is dropped; otherwise the sub is inserted in decreasing-value order and
the bounds are enforced by the walk.  Returns the updated list. -/
def SubListInsert {α : Type} [LinearOrder α] (inexact : Graph → Graph → ℚ)
    (s : Substructure α) (subList : List (Substructure α)) (maxN : Nat)
    (valueBased : Bool) : List (Substructure α) :=
  match subList with
  | [] => [s]
  | x :: xs =>
    if subListDupCheck inexact s (x :: xs) then x :: xs
    else subListInsertLoop s maxN valueBased (x :: xs) false 0 0 none

/-- Proof device: the position SubListInsert walks the new sub to — after
every entry whose value is ≥ the new sub's value (ties keep insertion
order), before the first strictly smaller entry. -/
def insertAfterTies {α : Type} [LinearOrder α] (s : Substructure α)
    (l : List (Substructure α)) : List (Substructure α) :=
  l.takeWhile (fun x => decide (s.value ≤ x.value)) ++
    s :: l.dropWhile (fun x => decide (s.value ≤ x.value))

/-- Proof device: the counter-driven truncating walk that
subListInsertLoop performs once the spliced list is fixed. -/
def subListTruncWalk {α : Type} [LinearOrder α] (maxN : Nat)
    (valueBased : Bool) :
    List (Substructure α) → Nat → Nat → Option α → List (Substructure α)
  | [], _, _, _ => []
  | y :: ys, numSubs, numDiffVals, prev =>
    let numSubs2 := numSubs + 1
    let numDiffVals2 :=
      match prev with
      | none => 1
      | some pv => if pv ≠ y.value then numDiffVals + 1 else numDiffVals
    if maxN > 0 ∧ ((valueBased = true ∧ numDiffVals2 > maxN) ∨
        (valueBased = false ∧ numSubs2 > maxN)) then []
    else y :: subListTruncWalk maxN valueBased ys numSubs2 numDiffVals2
      (some y.value)

/-- Proof device: number of adjacent value changes relative to a previous
value, mirroring the numDiffVals counter. -/
def valueChanges {α : Type} [DecidableEq α] :
    α → List (Substructure α) → Nat
  | _, [] => 0
  | pv, y :: ys => (if pv ≠ y.value then 1 else 0) + valueChanges y.value ys

/-- Proof device: number of value runs of a list (= number of distinct
values when the list is sorted). -/
def valueCount {α : Type} [DecidableEq α] : List (Substructure α) → Nat
  | [] => 0
  | y :: ys => 1 + valueChanges y.value ys

/-- A sorted three-entry sub list (values 5, 4, 3) for the C6 witness. -/
def subsSorted : List (Substructure ℚ) :=
  [⟨⟨[⟨0, 0, false⟩], []⟩, [], 0, [], 0, 5, false, 0, 0, 0⟩,
   ⟨⟨[⟨1, 0, false⟩], []⟩, [], 0, [], 0, 4, false, 0, 0, 0⟩,
   ⟨⟨[⟨2, 0, false⟩], []⟩, [], 0, [], 0, 3, false, 0, 0, 0⟩]

/-- A new sub of value 4 (tying the middle entry, different definition). -/
def subNew : Substructure ℚ :=
  ⟨⟨[⟨9, 0, false⟩], []⟩, [], 0, [], 0, 4, false, 0, 0, 0⟩

/-- Number of vertices of `g` carrying label `lbl`. -/
def labelOccurrences (g : Graph) (lbl : Nat) : Nat :=
  ((List.range g.numVertices).filter fun j =>
    decide ((g.vertex j).label = lbl)).length

/-- The positive instances GetInitialSubs collects for the label first
occurring at vertex `i`: every vertex from `i` upward with that label (the
C scans downward from the last vertex and prepends, producing this
ascending list). -/
def initialInstances (g : Graph) (i lbl : Nat) : List Instance :=
  ((List.range g.numVertices).filter fun j =>
    decide (i ≤ j ∧ (g.vertex j).label = lbl)).map fun j => ⟨[j], []⟩

/-- The negative instances for an initial one-vertex sub: every
negative-graph vertex with the label. -/
def initialNegInstances (negGraph : Option Graph) (lbl : Nat) :
    List Instance :=
  match negGraph with
  | some ng =>
      ((List.range ng.numVertices).filter fun j =>
        decide ((ng.vertex j).label = lbl)).map fun j => ⟨[j], []⟩
  | none => []

/-- Vertex loop of GetInitialSubs (discover.c lines 226-302,
non-incremental), over the remaining vertex indices with the set of
already-used labels threaded: first occurrence of a label builds a
one-vertex substructure with all its positive (and negative) instances,
keeps it only when it has more than one positive instance (evaluated by
`ev`, which the program instantiates with EvaluateSub, and inserted
unbounded), and frees it otherwise.  `v0` is AllocateSub's initial value
(-1.0). -/
def getInitialSubsLoop {α : Type} [LinearOrder α]
    (ev : Substructure α → Substructure α) (inexact : Graph → Graph → ℚ)
    (v0 : α) (posGraph : Graph) (negGraph : Option Graph) :
    List Nat → List Nat → List (Substructure α) → List (Substructure α)
  | [], _, subs => subs
  | i :: rest, used, subs =>
    let lbl := (posGraph.vertex i).label
    if lbl ∈ used then
      getInitialSubsLoop ev inexact v0 posGraph negGraph rest used subs
    else
      let insts := initialInstances posGraph i lbl
      if 1 < insts.length then
        let negInsts := initialNegInstances negGraph lbl
        let sub : Substructure α :=
          ⟨⟨[⟨lbl, VERTEX_UNMAPPED, false⟩], []⟩, insts, insts.length,
           negInsts, negInsts.length, v0, false, 0, 0, 0⟩
        getInitialSubsLoop ev inexact v0 posGraph negGraph rest
          (lbl :: used)
          (SubListInsert inexact (ev sub) subs 0 false)
      else
        getInitialSubsLoop ev inexact v0 posGraph negGraph rest
          (lbl :: used) subs

/-- GetInitialSubs from discover.c (non-incremental). -/
def GetInitialSubs {α : Type} [LinearOrder α]
    (ev : Substructure α → Substructure α) (inexact : Graph → Graph → ℚ)
    (v0 : α) (posGraph : Graph) (negGraph : Option Graph) :
    List (Substructure α) :=
  getInitialSubsLoop ev inexact v0 posGraph negGraph
    (List.range posGraph.numVertices) [] []

/-- Expected single output sub of the C8 witness run (label 0 occurs
twice in `gPosPair`). -/
def subInitial : Substructure ℚ :=
  ⟨⟨[⟨0, VERTEX_UNMAPPED, false⟩], []⟩, [⟨[0], []⟩, ⟨[1], []⟩], 2,
   [], 0, -1, false, 0, 0, 0⟩

@[simp] lemma Log2_zero : Log2 0 = 0 := by simp [Log2]

@[simp] lemma Log2_one : Log2 1 = 0 := by simp [Log2]

@[simp] lemma Log2_two : Log2 2 = 1 := by
  simp [Log2]

@[simp] lemma Log2Factorial_zero : Log2Factorial 0 = 0 := by
  simp [Log2Factorial]

@[simp] lemma Log2Factorial_one : Log2Factorial 1 = 0 := by
  simp [Log2Factorial, Finset.sum_range_succ]

@[simp] lemma Log2Factorial_two : Log2Factorial 2 = 1 := by
  simp [Log2Factorial, Finset.sum_range_succ]

lemma sum_log2Comb (V : Nat) (k : Nat → Nat) :
    ∑ v in Finset.range V, Log2Comb V (k v)
      = V * Log2Factorial V
        - ∑ v in Finset.range V,
            (Log2Factorial (k v) + Log2Factorial (V - k v)) := by
  unfold Log2Comb
  rw [Finset.sum_sub_distrib, Finset.sum_sub_distrib, Finset.sum_const,
    Finset.card_range, Finset.sum_add_distrib, nsmul_eq_mul]
  ring

lemma NumUniqueEdges_no_edges (g : Graph) (h : g.edges = []) (v : Nat) :
    NumUniqueEdges g v = 0 := by
  simp [NumUniqueEdges, incidentEdges, Graph.numEdges, h]

lemma MaxEdgesToSingleVertex_no_edges (g : Graph) (h : g.edges = [])
    (v : Nat) : MaxEdgesToSingleVertex g v = 0 := by
  simp [MaxEdgesToSingleVertex, incidentEdges, Graph.numEdges, h, maxEdgesFrom]

/-- On an edgeless graph the description length degenerates to the vertex
bits `lg V + V·lg L`. -/
lemma MDL_no_edges (g : Graph) (h : g.edges = []) (L : Nat) :
    MDL g L = Log2 g.numVertices + g.numVertices * Log2 L := by
  unfold MDL
  simp only [NumUniqueEdges_no_edges g h, MaxEdgesToSingleVertex_no_edges g h,
    Graph.numEdges, h, List.length_nil]
  have hsup : ((Finset.range g.numVertices).sup fun _ => (0 : Nat)) = 0 :=
    le_antisymm (Finset.sup_le fun _ _ => le_rfl) (Nat.zero_le _)
  rw [hsup]
  simp [Finset.sum_const, Finset.card_range, nsmul_eq_mul]

/-- C2 (amended): the MDL function computes
`lg V + V·lg L + Σ lg C(V,k_i) + (V+1)·lg(B+1) + E·(1+lg L) + (K+1)·lg M`
with k_i = NumUniqueEdges, B = max k_i, K = Σ k_i and M the maximum of
MaxEdgesToSingleVertex: the claim's formula with the vertex term
`V·(1+lg L)` replaced by `lg V + V·lg L`. -/
theorem MDL_closed_form (g : Graph) (L : Nat) :
    MDL g L
      = Log2 g.numVertices + g.numVertices * Log2 L
        + (∑ v in Finset.range g.numVertices,
            Log2Comb g.numVertices (NumUniqueEdges g v))
        + (g.numVertices + 1) *
            Log2 (((Finset.range g.numVertices).sup fun v =>
              NumUniqueEdges g v) + 1)
        + g.numEdges * (1 + Log2 L)
        + ((∑ v in Finset.range g.numVertices, NumUniqueEdges g v) + 1) *
            Log2 ((Finset.range g.numVertices).sup fun v =>
              MaxEdgesToSingleVertex g v) := by
  unfold MDL
  rw [sum_log2Comb]
  ring

/-- C2 counterexample: on a one-vertex edgeless graph with one label the
code returns 0 bits while the claimed formula gives `V·(1+lg L)` = 1 bit. -/
theorem MDL_spec_formula_counterexample : MDL gC2 1 ≠ MDLSpecFormula gC2 1 := by
  have hV : gC2.numVertices = 1 := by decide
  have hZ : NumUniqueEdges gC2 0 = 0 := by decide
  have h1 : MDL gC2 1 = 0 := by
    rw [MDL_no_edges gC2 rfl 1, hV]
    simp
  have h2 : MDLSpecFormula gC2 1 = 1 := by
    unfold MDLSpecFormula
    rw [hV]
    have hB : (Finset.range 1).sup (fun v => NumUniqueEdges gC2 v) = 0 := by
      decide
    have hK : (∑ v in Finset.range 1, NumUniqueEdges gC2 v) = 0 := by decide
    have hM : (Finset.range 1).sup (fun v => MaxEdgesToSingleVertex gC2 v)
        = 0 := by decide
    rw [hB, hK, hM, Finset.sum_range_one, hZ]
    have : Log2Comb 1 0 = 0 := by simp [Log2Comb]
    rw [this]
    have hE : gC2.numEdges = 0 := by decide
    rw [hE]
    simp
  rw [h1, h2]
  norm_num

lemma length_filter_not_contains (V : Nat) (l : List Nat) (hnd : l.Nodup)
    (hsub : ∀ v ∈ l, v < V) :
    l.length ≤ V ∧
      ((List.range V).filter fun v => !decide (v ∈ l)).length
        = V - l.length := by
  have hmemlen : ((List.range V).filter fun v => decide (v ∈ l)).length
      = l.length := by
    have hfin : ((List.range V).filter fun v => decide (v ∈ l)).toFinset
        = l.toFinset := by
      ext x
      simp only [List.mem_toFinset, List.mem_filter, List.mem_range,
        decide_eq_true_eq]
      exact ⟨fun h => h.2, fun h => ⟨hsub x h, h⟩⟩
    have h1 := List.toFinset_card_of_nodup
      (List.Nodup.filter (fun v => decide (v ∈ l)) (List.nodup_range V))
    have h2 := List.toFinset_card_of_nodup hnd
    rw [hfin, h2] at h1
    exact h1.symm
  have hsplit := List.length_eq_countP_add_countP
    (p := fun v => decide (v ∈ l)) (l := List.range V)
  simp only [List.countP_eq_length_filter, List.length_range, decide_not,
    decide_eq_true_eq, Bool.decide_eq_true] at hsplit
  rw [hmemlen] at hsplit
  refine ⟨by omega, by omega⟩

lemma instanceVertexList_length_of_disjoint (insts : List Instance)
    (hnd : ∀ i ∈ insts, i.vertices.Nodup)
    (hdisj : insts.Pairwise fun a b => ∀ v ∈ a.vertices, v ∉ b.vertices) :
    (instanceVertexList insts).length
      = (insts.map fun i => i.vertices.length).sum := by
  unfold instanceVertexList
  have hnodup : ((insts.map fun i => i.vertices).flatten).Nodup := by
    rw [List.nodup_flatten]
    constructor
    · intro l hl
      rcases List.mem_map.1 hl with ⟨i, hi, rfl⟩
      exact hnd i hi
    · exact List.Pairwise.map _ (fun a b hab v hv hv2 => hab v hv hv2) hdisj
  rw [List.Nodup.dedup hnodup, List.length_flatten, List.map_map]
  rfl

lemma instanceEdgeList_length_of_disjoint (insts : List Instance)
    (hnd : ∀ i ∈ insts, i.edges.Nodup)
    (hdisj : insts.Pairwise fun a b => ∀ e ∈ a.edges, e ∉ b.edges) :
    (instanceEdgeList insts).length
      = (insts.map fun i => i.edges.length).sum := by
  unfold instanceEdgeList
  have hnodup : ((insts.map fun i => i.edges).flatten).Nodup := by
    rw [List.nodup_flatten]
    constructor
    · intro l hl
      rcases List.mem_map.1 hl with ⟨i, hi, rfl⟩
      exact hnd i hi
    · exact List.Pairwise.map _ (fun a b hab v hv hv2 => hab v hv hv2) hdisj
  rw [List.Nodup.dedup hnodup, List.length_flatten, List.map_map]
  rfl

lemma instanceVertexList_sub (insts : List Instance) (V : Nat)
    (hval : ∀ i ∈ insts, ∀ v ∈ i.vertices, v < V) :
    ∀ v ∈ instanceVertexList insts, v < V := by
  intro v hv
  unfold instanceVertexList at hv
  rcases List.mem_flatten.1 (List.mem_dedup.1 hv) with ⟨l, hl, hvl⟩
  rcases List.mem_map.1 hl with ⟨i, hi, rfl⟩
  exact hval i hi v hvl

lemma instanceEdgeList_sub (insts : List Instance) (E : Nat)
    (hval : ∀ i ∈ insts, ∀ e ∈ i.edges, e < E) :
    ∀ e ∈ instanceEdgeList insts, e < E := by
  intro e he
  unfold instanceEdgeList at he
  rcases List.mem_flatten.1 (List.mem_dedup.1 he) with ⟨l, hl, hel⟩
  rcases List.mem_map.1 hl with ⟨i, hi, rfl⟩
  exact hval i hi e hel

/-- C4: the compressed graph has `|V(g)| - u + n` vertices, where `u`
counts each host vertex covered by some instance exactly once (shared
vertices subtracted once) and `n` is the number of instances; with
pairwise vertex-disjoint instances, `u = Σ|V(instsᵢ)|`. -/
theorem CompressGraph_vertex_count (g : Graph) (insts : List Instance)
    (p : Parameters)
    (hval : ∀ i ∈ insts, ∀ v ∈ i.vertices, v < g.numVertices) :
    (CompressGraph g insts p).numVertices
        = g.numVertices - (instanceVertexList insts).length + insts.length
      ∧ ((∀ i ∈ insts, i.vertices.Nodup) →
          insts.Pairwise (fun a b => ∀ v ∈ a.vertices, v ∉ b.vertices) →
          (CompressGraph g insts p).numVertices
            = g.numVertices - (insts.map fun i => i.vertices.length).sum
              + insts.length) := by
  have hbase : (CompressGraph g insts p).numVertices
      = insts.length +
        ((List.range g.numVertices).filter fun v =>
          !decide (v ∈ instanceVertexList insts)).length := by
    unfold CompressGraph Graph.numVertices
    by_cases hov : p.allowInstanceOverlap <;>
      simp [hov, List.length_append, List.length_replicate]
  have hlen := length_filter_not_contains g.numVertices
    (instanceVertexList insts) (List.nodup_dedup _)
    (instanceVertexList_sub insts g.numVertices hval)
  constructor
  · rw [hbase, hlen.2]
    omega
  · intro hnd hdisj
    rw [hbase, hlen.2, instanceVertexList_length_of_disjoint insts hnd hdisj]
    omega

lemma sum_int_split (l : List Instance) :
    (l.map fun i =>
      1 - (i.vertices.length : Int) - (i.edges.length : Int)).sum
      = (l.length : Int) - ((l.map fun i => i.vertices.length).sum : Nat)
        - ((l.map fun i => i.edges.length).sum : Nat) := by
  induction l with
  | nil => simp
  | cons a t ih =>
    simp only [List.map_cons, List.sum_cons, ih, List.length_cons]
    push_cast
    ring

/-- Supporting result for C3: with overlap disallowed and instances pairwise vertex-
and edge-disjoint (duplicate-free, valid indices), SizeOfCompressedGraph
computes exactly `|V'| + |E'|` of the graph CompressGraph would build,
without building it. -/
theorem SizeOfCompressedGraph_eq (g : Graph) (insts : List Instance)
    (p : Parameters)
    (hov : p.allowInstanceOverlap = false)
    (hvval : ∀ i ∈ insts, ∀ v ∈ i.vertices, v < g.numVertices)
    (heval : ∀ i ∈ insts, ∀ e ∈ i.edges, e < g.numEdges)
    (hvnd : ∀ i ∈ insts, i.vertices.Nodup)
    (hend : ∀ i ∈ insts, i.edges.Nodup)
    (hvdisj : insts.Pairwise fun a b => ∀ v ∈ a.vertices, v ∉ b.vertices)
    (hedisj : insts.Pairwise fun a b => ∀ e ∈ a.edges, e ∉ b.edges) :
    SizeOfCompressedGraph g insts p
      = (GraphSize (CompressGraph g insts p) : Int) := by
  have hV : (CompressGraph g insts p).numVertices
      = insts.length +
        ((List.range g.numVertices).filter fun v =>
          !decide (v ∈ instanceVertexList insts)).length := by
    unfold CompressGraph Graph.numVertices
    simp [hov, List.length_append, List.length_replicate]
  have hE : (CompressGraph g insts p).numEdges
      = ((List.range g.numEdges).filter fun ei =>
          !decide (ei ∈ instanceEdgeList insts)).length := by
    unfold CompressGraph Graph.numEdges
    simp [hov]
  have hlenV := length_filter_not_contains g.numVertices
    (instanceVertexList insts) (List.nodup_dedup _)
    (instanceVertexList_sub insts g.numVertices hvval)
  have hlenE := length_filter_not_contains g.numEdges
    (instanceEdgeList insts) (List.nodup_dedup _)
    (instanceEdgeList_sub insts g.numEdges heval)
  have hVsum := instanceVertexList_length_of_disjoint insts hvnd hvdisj
  have hEsum := instanceEdgeList_length_of_disjoint insts hend hedisj
  simp only [SizeOfCompressedGraph, hov, Bool.false_eq_true, if_false]
  rw [sum_int_split]
  unfold GraphSize
  rw [hV, hE, hlenV.2, hlenE.2]
  have h1 := hlenV.1
  have h2 := hlenE.1
  rw [hVsum] at h1
  rw [hEsum] at h2
  rw [hVsum, hEsum]
  omega

/-- C3 counterexample: with overlap allowed, SizeOfCompressedGraph (5)
differs from the size of the graph CompressGraph actually builds (6),
because NumOverlapEdges reads the host's stale VERTEX_UNMAPPED `map`
fields and duplicates the external self-edge once, while AddOverlapEdges
sees the freshly computed map and emits two duplicates. -/
theorem SizeOfCompressedGraph_overlap_counterexample :
    SizeOfCompressedGraph gOverlapHost instsOverlap pOverlap
      ≠ (GraphSize (CompressGraph gOverlapHost instsOverlap pOverlap) : Int) := by
  decide

theorem SizeOfCompressedGraph_eq_witness :
    pNoOverlap.allowInstanceOverlap = false ∧
    (∀ i ∈ instsTwoPaths, ∀ v ∈ i.vertices, v < gTwoPaths.numVertices) ∧
    (∀ i ∈ instsTwoPaths, ∀ e ∈ i.edges, e < gTwoPaths.numEdges) ∧
    (∀ i ∈ instsTwoPaths, i.vertices.Nodup) ∧
    (∀ i ∈ instsTwoPaths, i.edges.Nodup) ∧
    instsTwoPaths.Pairwise (fun a b => ∀ v ∈ a.vertices, v ∉ b.vertices) ∧
    instsTwoPaths.Pairwise (fun a b => ∀ e ∈ a.edges, e ∉ b.edges) ∧
    SizeOfCompressedGraph gTwoPaths instsTwoPaths pNoOverlap
      = (GraphSize (CompressGraph gTwoPaths instsTwoPaths pNoOverlap) : Int) :=
  ⟨rfl, by decide, by decide, by decide, by decide, by decide, by decide,
   SizeOfCompressedGraph_eq gTwoPaths instsTwoPaths pNoOverlap rfl
     (by decide) (by decide) (by decide) (by decide) (by decide) (by decide)⟩

theorem CompressGraph_vertex_count_witness :
    (∀ i ∈ instsTwoPaths, ∀ v ∈ i.vertices, v < gTwoPaths.numVertices) ∧
    ((CompressGraph gTwoPaths instsTwoPaths pNoOverlap).numVertices
        = gTwoPaths.numVertices
          - (instanceVertexList instsTwoPaths).length + instsTwoPaths.length
      ∧ ((∀ i ∈ instsTwoPaths, i.vertices.Nodup) →
          instsTwoPaths.Pairwise
            (fun a b => ∀ v ∈ a.vertices, v ∉ b.vertices) →
          (CompressGraph gTwoPaths instsTwoPaths pNoOverlap).numVertices
            = gTwoPaths.numVertices
              - (instsTwoPaths.map fun i => i.vertices.length).sum
              + instsTwoPaths.length)) :=
  ⟨by decide,
   CompressGraph_vertex_count gTwoPaths instsTwoPaths pNoOverlap (by decide)⟩

lemma ExternalEdgeBits_no_edges (cg sg : Graph) (n : Nat)
    (h : cg.edges = []) : ExternalEdgeBits cg sg n = 0 := by
  simp [ExternalEdgeBits, incidentEdges, Graph.numEdges, h]

lemma evaluateSub_value_mdl_neg (sub : Substructure ℝ) (p : Parameters)
    (ng : Graph) (hm : p.evalMethod = EvalMethod.mdl)
    (hng : p.negGraph = some ng) (hrec : sub.recursive = false) :
    (EvaluateSub sub p).value
      = (p.posGraphDL + p.negGraphDL) /
          (MDL sub.definition p.labelListNumLabels
            + (MDL (CompressGraph p.posGraph sub.instances p)
                 (compressedNumLabels p sub)
               + ExternalEdgeBits (CompressGraph p.posGraph sub.instances p)
                   sub.definition sub.numInstances)
            + p.negGraphDL
            - (MDL (CompressGraph ng sub.negInstances p)
                 (compressedNumLabels p sub)
               + ExternalEdgeBits (CompressGraph ng sub.negInstances p)
                   sub.definition sub.numNegInstances)) := by
  simp [EvaluateSub, hm, hng, hrec]

/-- C1 (amended): under MDL with a negative graph present, the value is
`(DL(G_pos) + DL(G_neg)) / (DL(S) + DL(G_pos|S) + DL(G_neg) - DL(G_neg|S))`
where each `DL(G|S)` includes the ExternalEdgeBits term: the numerator is
the sum of both cached graph description lengths, not `DL(G_pos)` alone. -/
theorem EvaluateSub_mdl_neg_value (sub : Substructure ℝ) (p : Parameters)
    (ng : Graph) (hm : p.evalMethod = EvalMethod.mdl)
    (hng : p.negGraph = some ng) (hrec : sub.recursive = false) :
    (EvaluateSub sub p).value
      = (p.posGraphDL + p.negGraphDL) /
          (MDL sub.definition p.labelListNumLabels
            + (MDL (CompressGraph p.posGraph sub.instances p)
                 (compressedNumLabels p sub)
               + ExternalEdgeBits (CompressGraph p.posGraph sub.instances p)
                   sub.definition sub.numInstances)
            + p.negGraphDL
            - (MDL (CompressGraph ng sub.negInstances p)
                 (compressedNumLabels p sub)
               + ExternalEdgeBits (CompressGraph ng sub.negInstances p)
                   sub.definition sub.numNegInstances)) :=
  evaluateSub_value_mdl_neg sub p ng hm hng hrec

/-- Sanity: the cached `posGraphDL` in `pC1` is the true description
length of the positive graph. -/
lemma MDL_gPosPair : MDL gPosPair 1 = 1 := by
  rw [MDL_no_edges gPosPair rfl 1]
  have h : gPosPair.numVertices = 2 := by decide
  rw [h]
  simp

/-- C1 counterexample: at the concrete example the computed value is
`(1+1)/1 = 2`, while the claimed formula with numerator `DL(G_pos)` alone
yields `1/1 = 1`. -/
theorem EvaluateSub_mdl_numerator_counterexample :
    (EvaluateSub subC1 pC1).value
      ≠ pC1.posGraphDL /
          (MDL subC1.definition pC1.labelListNumLabels
            + (MDL (CompressGraph pC1.posGraph subC1.instances pC1)
                 (compressedNumLabels pC1 subC1)
               + ExternalEdgeBits
                   (CompressGraph pC1.posGraph subC1.instances pC1)
                   subC1.definition subC1.numInstances)
            + pC1.negGraphDL
            - (MDL (CompressGraph gNegPair subC1.negInstances pC1)
                 (compressedNumLabels pC1 subC1)
               + ExternalEdgeBits
                   (CompressGraph gNegPair subC1.negInstances pC1)
                   subC1.definition subC1.numNegInstances)) := by
  have hval := evaluateSub_value_mdl_neg subC1 pC1 gNegPair rfl rfl rfl
  rw [hval]
  have h1 : CompressGraph pC1.posGraph subC1.instances pC1 = gSubPair := by
    decide
  have h2 : CompressGraph gNegPair subC1.negInstances pC1 = gNegPair := by
    decide
  have h3 : compressedNumLabels pC1 subC1 = 2 := by decide
  rw [h1, h2, h3]
  rw [MDL_no_edges subC1.definition rfl, MDL_no_edges gSubPair rfl,
    MDL_no_edges gNegPair rfl,
    ExternalEdgeBits_no_edges gSubPair subC1.definition subC1.numInstances
      rfl,
    ExternalEdgeBits_no_edges gNegPair subC1.definition
      subC1.numNegInstances rfl]
  have hs : subC1.definition.numVertices = 1 := by decide
  have hp : gSubPair.numVertices = 2 := by decide
  have hn : gNegPair.numVertices = 2 := by decide
  rw [hs, hp, hn]
  show (pC1.posGraphDL + pC1.negGraphDL) / _ ≠ _
  have hdl1 : pC1.posGraphDL = 1 := rfl
  have hdl2 : pC1.negGraphDL = 1 := rfl
  have hll : pC1.labelListNumLabels = 1 := rfl
  rw [hdl1, hdl2, hll]
  norm_num

theorem EvaluateSub_mdl_neg_value_witness :
    pC1.evalMethod = EvalMethod.mdl ∧ pC1.negGraph = some gNegPair ∧
    subC1.recursive = false ∧
    (EvaluateSub subC1 pC1).value
      = (pC1.posGraphDL + pC1.negGraphDL) /
          (MDL subC1.definition pC1.labelListNumLabels
            + (MDL (CompressGraph pC1.posGraph subC1.instances pC1)
                 (compressedNumLabels pC1 subC1)
               + ExternalEdgeBits
                   (CompressGraph pC1.posGraph subC1.instances pC1)
                   subC1.definition subC1.numInstances)
            + pC1.negGraphDL
            - (MDL (CompressGraph gNegPair subC1.negInstances pC1)
                 (compressedNumLabels pC1 subC1)
               + ExternalEdgeBits
                   (CompressGraph gNegPair subC1.negInstances pC1)
                   subC1.definition subC1.numNegInstances)) :=
  ⟨rfl, rfl, rfl, EvaluateSub_mdl_neg_value subC1 pC1 gNegPair rfl rfl rfl⟩

lemma length_filter_range_eq_card (n : Nat) (P : Nat → Prop)
    [DecidablePred P] :
    ((List.range n).filter fun i => decide (P i)).length
      = ((Finset.range n).filter P).card := by
  induction n with
  | zero => simp
  | succ m ih =>
    rw [List.range_succ, Finset.range_succ, List.filter_append,
      List.length_append, ih, Finset.filter_insert]
    by_cases h : P m
    · simp [h, Finset.card_insert_of_not_mem, Finset.mem_filter]
    · simp [h]

lemma ExamplesCovered_le (il : List Instance) (g : Graph) (numEgs : Nat)
    (idx : List Nat) : ExamplesCovered il g numEgs idx ≤ numEgs := by
  unfold ExamplesCovered
  calc ((List.range numEgs).filter _).length
      ≤ (List.range numEgs).length := List.length_filter_le _ _
    _ = numEgs := List.length_range numEgs

lemma ExamplesCovered_card (il : List Instance) (g : Graph) (numEgs : Nat)
    (idx : List Nat) :
    ExamplesCovered il g numEgs idx
      = ((Finset.range numEgs).filter fun i =>
          ∃ inst ∈ il,
            idx.getD i 0 ≤ inst.vertices.headD 0 ∧
            inst.vertices.headD 0 ≤
              (if i < numEgs - 1 then idx.getD (i + 1) 0 - 1
               else g.numVertices - 1)).card := by
  unfold ExamplesCovered
  exact length_filter_range_eq_card numEgs _

/-- C7: under SET_COVER the value is
`(posEgsCovered + (numNegEgs - negEgsCovered)) / (numPosEgs + numNegEgs)`,
and an example counts as covered exactly when some instance on the
corresponding instance list has its first (lowest-index) vertex inside the
example's vertex-index range. -/
theorem EvaluateSub_setCover_value (sub : Substructure ℝ) (p : Parameters)
    (ng : Graph) (hm : p.evalMethod = EvalMethod.setCover)
    (hng : p.negGraph = some ng) :
    (EvaluateSub sub p).value
        = ((PosExamplesCovered sub p : ℝ) +
            ((p.numNegEgs : ℝ) - (NegExamplesCovered sub p : ℝ))) /
            ((p.numPosEgs : ℝ) + (p.numNegEgs : ℝ))
      ∧ PosExamplesCovered sub p
          = ((Finset.range p.numPosEgs).filter fun i =>
              ∃ inst ∈ sub.instances,
                p.posEgsVertexIndices.getD i 0 ≤ inst.vertices.headD 0 ∧
                inst.vertices.headD 0 ≤
                  (if i < p.numPosEgs - 1 then
                    p.posEgsVertexIndices.getD (i + 1) 0 - 1
                   else p.posGraph.numVertices - 1)).card
      ∧ NegExamplesCovered sub p
          = ((Finset.range p.numNegEgs).filter fun i =>
              ∃ inst ∈ sub.negInstances,
                p.negEgsVertexIndices.getD i 0 ≤ inst.vertices.headD 0 ∧
                inst.vertices.headD 0 ≤
                  (if i < p.numNegEgs - 1 then
                    p.negEgsVertexIndices.getD (i + 1) 0 - 1
                   else ng.numVertices - 1)).card := by
  refine ⟨?_, ?_, ?_⟩
  · have hle : NegExamplesCovered sub p ≤ p.numNegEgs := by
      simp only [NegExamplesCovered, hng]
      exact ExamplesCovered_le _ _ _ _
    simp only [EvaluateSub, hm, hng]
    simp only [Option.isSome_some, if_true]
    push_cast [Nat.cast_sub hle]
    ring
  · exact ExamplesCovered_card _ _ _ _
  · simp only [NegExamplesCovered, hng]
    exact ExamplesCovered_card _ _ _ _

theorem EvaluateSub_setCover_value_witness :
    pSetCover.evalMethod = EvalMethod.setCover ∧
    pSetCover.negGraph = some gNegPair ∧
    ((EvaluateSub subC1 pSetCover).value
        = ((PosExamplesCovered subC1 pSetCover : ℝ) +
            ((pSetCover.numNegEgs : ℝ) -
              (NegExamplesCovered subC1 pSetCover : ℝ))) /
            ((pSetCover.numPosEgs : ℝ) + (pSetCover.numNegEgs : ℝ))
      ∧ PosExamplesCovered subC1 pSetCover
          = ((Finset.range pSetCover.numPosEgs).filter fun i =>
              ∃ inst ∈ subC1.instances,
                pSetCover.posEgsVertexIndices.getD i 0
                    ≤ inst.vertices.headD 0 ∧
                inst.vertices.headD 0 ≤
                  (if i < pSetCover.numPosEgs - 1 then
                    pSetCover.posEgsVertexIndices.getD (i + 1) 0 - 1
                   else pSetCover.posGraph.numVertices - 1)).card
      ∧ NegExamplesCovered subC1 pSetCover
          = ((Finset.range pSetCover.numNegEgs).filter fun i =>
              ∃ inst ∈ subC1.negInstances,
                pSetCover.negEgsVertexIndices.getD i 0
                    ≤ inst.vertices.headD 0 ∧
                inst.vertices.headD 0 ≤
                  (if i < pSetCover.numNegEgs - 1 then
                    pSetCover.negEgsVertexIndices.getD (i + 1) 0 - 1
                   else gNegPair.numVertices - 1)).card) :=
  ⟨rfl, rfl, EvaluateSub_setCover_value subC1 pSetCover gNegPair rfl rfl⟩

/-- C9: evaluating a recursive substructure leaves the definition (and the
instance lists, counts, recursion fields) untouched, and its value is the
value that would be computed for the non-recursive substructure whose
definition is the temporary copy augmented with the directed self-edge
labeled recursiveEdgeLabel. -/
theorem EvaluateSub_recursive_frame (sub : Substructure ℝ) (p : Parameters)
    (hrec : sub.recursive = true) :
    (EvaluateSub sub p).definition = sub.definition ∧
    (EvaluateSub sub p).instances = sub.instances ∧
    (EvaluateSub sub p).numInstances = sub.numInstances ∧
    (EvaluateSub sub p).negInstances = sub.negInstances ∧
    (EvaluateSub sub p).numNegInstances = sub.numNegInstances ∧
    (EvaluateSub sub p).recursive = sub.recursive ∧
    (EvaluateSub sub p).recursiveEdgeLabel = sub.recursiveEdgeLabel ∧
    (EvaluateSub sub p).value
      = (EvaluateSub
          { sub with
            recursive := false
            definition := AddEdge (CopyGraph sub.definition) 0 0 true
              sub.recursiveEdgeLabel } p).value := by
  refine ⟨rfl, rfl, rfl, rfl, rfl, rfl, rfl, ?_⟩
  simp only [EvaluateSub, hrec]
  rfl

theorem EvaluateSub_recursive_frame_witness :
    subRec.recursive = true ∧
    ((EvaluateSub subRec pC1).definition = subRec.definition ∧
     (EvaluateSub subRec pC1).instances = subRec.instances ∧
     (EvaluateSub subRec pC1).numInstances = subRec.numInstances ∧
     (EvaluateSub subRec pC1).negInstances = subRec.negInstances ∧
     (EvaluateSub subRec pC1).numNegInstances = subRec.numNegInstances ∧
     (EvaluateSub subRec pC1).recursive = subRec.recursive ∧
     (EvaluateSub subRec pC1).recursiveEdgeLabel
        = subRec.recursiveEdgeLabel ∧
     (EvaluateSub subRec pC1).value
        = (EvaluateSub
            { subRec with
              recursive := false
              definition := AddEdge (CopyGraph subRec.definition) 0 0 true
                subRec.recursiveEdgeLabel } pC1).value) :=
  ⟨rfl, EvaluateSub_recursive_frame subRec pC1 rfl⟩

/-- C5: at threshold 0, graphs that differ in vertex or edge count are
rejected by the fast path: the result is `false` for every matcher
oracle whatsoever, so the inexact-match search is never consulted. -/
theorem GraphMatch_fast_path (g1 g2 : Graph)
    (h : g1.numVertices ≠ g2.numVertices ∨ g1.numEdges ≠ g2.numEdges)
    (inexact : Graph → Graph → ℚ) :
    GraphMatch inexact g1 g2 0 = false := by
  simp [GraphMatch, h]

theorem GraphMatch_fast_path_witness :
    (subDefOne.numVertices ≠ gPosPair.numVertices ∨
      subDefOne.numEdges ≠ gPosPair.numEdges) ∧
    GraphMatch (fun _ _ => 5) subDefOne gPosPair 0 = false :=
  ⟨by decide,
   GraphMatch_fast_path subDefOne gPosPair (by decide) (fun _ _ => 5)⟩

/-- C10: for any matcher whose cost between size-mismatched graphs is at
least one edit (as the edit-cost model guarantees), GraphMatch returns
TRUE exactly when the computed match cost is less than or equal to the
threshold — a cost exactly equal to the threshold is accepted, despite the
header comment saying "less than". -/
theorem GraphMatch_accepts_iff (inexact : Graph → Graph → ℚ)
    (g1 g2 : Graph) (t : ℚ) (ht : 0 ≤ t)
    (hmin : ∀ a b : Graph,
      a.numVertices ≠ b.numVertices ∨ a.numEdges ≠ b.numEdges →
      1 ≤ inexact a b) :
    (GraphMatch inexact g1 g2 t = true ↔
      (if g1.numVertices < g2.numVertices then inexact g2 g1
       else inexact g1 g2) ≤ t) := by
  unfold GraphMatch
  by_cases hfp : t = 0 ∧
      (g1.numVertices ≠ g2.numVertices ∨ g1.numEdges ≠ g2.numEdges)
  · obtain ⟨ht0, hsz⟩ := hfp
    subst ht0
    have hcost : 1 ≤ if g1.numVertices < g2.numVertices then inexact g2 g1
        else inexact g1 g2 := by
      by_cases hlt : g1.numVertices < g2.numVertices
      · simp only [hlt, if_true]
        exact hmin g2 g1 (by omega)
      · simp only [hlt, if_false]
        exact hmin g1 g2 hsz
    simp only [ne_eq, hsz, and_true, if_pos (by trivial : (0:ℚ) = 0)]
    constructor
    · intro hfalse
      exact absurd hfalse (by simp)
    · intro hle
      linarith
  · simp only [hfp, if_false]
    simp [not_lt]

theorem GraphMatch_accepts_iff_witness :
    (0 : ℚ) ≤ 1 ∧
    (GraphMatch (fun _ _ => 1) subDefOne subDefOne 1 = true ↔
      (if subDefOne.numVertices < subDefOne.numVertices then (1 : ℚ)
       else 1) ≤ 1) :=
  ⟨by norm_num,
   GraphMatch_accepts_iff (fun _ _ => 1) subDefOne subDefOne 1 (by norm_num)
     (fun _ _ _ => le_refl 1)⟩

lemma subListInsertLoop_inserted {α : Type} [LinearOrder α]
    (s : Substructure α) (maxN : Nat) (vb : Bool) :
    ∀ (l : List (Substructure α)) (ns nd : Nat) (prev : Option α),
      subListInsertLoop s maxN vb l true ns nd prev
        = subListTruncWalk maxN vb l ns nd prev := by
  intro l
  induction l with
  | nil => intro ns nd prev; rw [subListInsertLoop.eq_def]; rfl
  | cons x xs ih =>
    intro ns nd prev
    rw [subListInsertLoop.eq_def, subListTruncWalk.eq_def]
    dsimp only []
    rw [dif_neg (by simp : ¬(true = false ∧ x.value < s.value)),
      dif_neg (by simp : ¬(true = false ∧ xs = []))]
    split
    · rfl
    · rw [ih]

lemma subListInsertLoop_not_inserted {α : Type} [LinearOrder α]
    (s : Substructure α) (maxN : Nat) (vb : Bool) :
    ∀ (l : List (Substructure α)) (ns nd : Nat) (prev : Option α),
      l ≠ [] →
      subListInsertLoop s maxN vb l false ns nd prev
        = subListTruncWalk maxN vb (insertAfterTies s l) ns nd prev := by
  intro l
  induction l with
  | nil => intro ns nd prev h; exact absurd rfl h
  | cons x xs ih =>
    intro ns nd prev _
    by_cases hlt : x.value < s.value
    · have htw : insertAfterTies s (x :: xs) = s :: x :: xs := by
        unfold insertAfterTies
        rw [List.takeWhile_cons, List.dropWhile_cons]
        simp [not_le.2 hlt]
      rw [htw, subListInsertLoop.eq_def, subListTruncWalk.eq_def]
      dsimp only []
      rw [dif_pos (⟨rfl, hlt⟩ : false = false ∧ x.value < s.value)]
      split
      · rfl
      · rw [subListInsertLoop_inserted]
    · have hle : s.value ≤ x.value := not_lt.1 hlt
      have htw : insertAfterTies s (x :: xs) = x :: insertAfterTies s xs := by
        unfold insertAfterTies
        rw [List.takeWhile_cons, List.dropWhile_cons]
        simp [hle]
      rcases List.eq_nil_or_concat xs with hnil | _
      · subst hnil
        have htw2 : insertAfterTies s [x] = [x, s] := by
          unfold insertAfterTies
          rw [List.takeWhile_cons, List.dropWhile_cons]
          simp [hle]
        rw [htw2, subListInsertLoop.eq_def, subListTruncWalk.eq_def]
        dsimp only []
        rw [dif_neg (by simp [hlt] : ¬(false = false ∧ x.value < s.value)),
          dif_pos (⟨rfl, rfl⟩ : false = false ∧ ([] : List (Substructure α)) = [])]
        split
        · rfl
        · rw [subListInsertLoop_inserted]
      · have hxs : xs ≠ [] := by
          rintro rfl
          simp at *
        rw [htw, subListInsertLoop.eq_def, subListTruncWalk.eq_def]
        dsimp only []
        rw [dif_neg (by simp [hlt] : ¬(false = false ∧ x.value < s.value)),
          dif_neg (by simp [hxs] : ¬(false = false ∧ xs = []))]
        split
        · rfl
        · rw [ih _ _ _ hxs]

lemma SubListInsert_eq {α : Type} [LinearOrder α]
    (inexact : Graph → Graph → ℚ) (s : Substructure α)
    (l : List (Substructure α)) (maxN : Nat) (vb : Bool) :
    SubListInsert inexact s l maxN vb
      = if l = [] then [s]
        else if subListDupCheck inexact s l = true then l
        else subListTruncWalk maxN vb (insertAfterTies s l) 0 0 none := by
  cases l with
  | nil => rfl
  | cons x xs =>
    rw [SubListInsert]
    rw [if_neg (by simp : ¬(x :: xs = []))]
    by_cases hdup : subListDupCheck inexact s (x :: xs) = true
    · rw [if_pos hdup, if_pos hdup]
    · rw [if_neg hdup]
      rw [if_neg (by simpa using hdup)]
      exact subListInsertLoop_not_inserted s maxN vb (x :: xs) 0 0 none
        (by simp)

lemma subListTruncWalk_initial {α : Type} [LinearOrder α] (maxN : Nat)
    (vb : Bool) :
    ∀ (l : List (Substructure α)) (ns nd : Nat) (prev : Option α),
      ∃ t, l = subListTruncWalk maxN vb l ns nd prev ++ t := by
  intro l
  induction l with
  | nil => intro ns nd prev; exact ⟨[], rfl⟩
  | cons y ys ih =>
    intro ns nd prev
    rw [subListTruncWalk.eq_def]
    dsimp only []
    split
    · exact ⟨y :: ys, rfl⟩
    · rcases ih (ns + 1) _ (some y.value) with ⟨t, ht⟩
      exact ⟨t, by rw [List.cons_append, ← ht]⟩

lemma subListTruncWalk_max_zero {α : Type} [LinearOrder α] (vb : Bool) :
    ∀ (l : List (Substructure α)) (ns nd : Nat) (prev : Option α),
      subListTruncWalk 0 vb l ns nd prev = l := by
  intro l
  induction l with
  | nil => intro ns nd prev; rfl
  | cons y ys ih =>
    intro ns nd prev
    rw [subListTruncWalk.eq_def]
    dsimp only []
    rw [if_neg (by simp)]
    rw [ih]

lemma subListTruncWalk_length {α : Type} [LinearOrder α] (maxN : Nat)
    (hm : 0 < maxN) :
    ∀ (l : List (Substructure α)) (ns nd : Nat) (prev : Option α),
      (subListTruncWalk maxN false l ns nd prev).length ≤ maxN - ns := by
  intro l
  induction l with
  | nil => intro ns nd prev; simp [subListTruncWalk]
  | cons y ys ih =>
    intro ns nd prev
    rw [subListTruncWalk.eq_def]
    dsimp only []
    by_cases hcond : ns + 1 > maxN
    · rw [if_pos (by simp [hm, hcond])]
      simp
    · rw [if_neg (by simp [hcond])]
      have := ih (ns + 1) (match prev with
        | none => 1
        | some pv => if pv ≠ y.value then nd + 1 else nd) (some y.value)
      simp only [List.length_cons]
      omega

lemma subListTruncWalk_changes {α : Type} [LinearOrder α] (maxN : Nat)
    (hm : 0 < maxN) :
    ∀ (l : List (Substructure α)) (ns nd : Nat) (pv : α), nd ≤ maxN →
      nd + valueChanges pv (subListTruncWalk maxN true l ns nd (some pv))
        ≤ maxN := by
  intro l
  induction l with
  | nil => intro ns nd pv hnd; simpa [subListTruncWalk, valueChanges]
  | cons y ys ih =>
    intro ns nd pv hnd
    rw [subListTruncWalk.eq_def]
    dsimp only []
    by_cases hv : pv ≠ y.value
    · by_cases hcond : nd + 1 > maxN
      · rw [if_pos (by simp [hv]; omega)]
        simpa [valueChanges] using hnd
      · rw [if_neg (by simp [hv]; omega)]
        have hrec := ih (ns + 1) (nd + 1) y.value (by omega)
        simp only [valueChanges, if_pos hv]
        omega
    · have hv2 : pv = y.value := not_not.1 hv
      rw [if_neg (by simp [hv2]; omega)]
      have hrec := ih (ns + 1) nd y.value hnd
      simp only [valueChanges, if_neg hv]
      omega

lemma subListTruncWalk_valueCount {α : Type} [LinearOrder α] (maxN : Nat)
    (hm : 0 < maxN) (l : List (Substructure α)) (ns nd : Nat) :
    valueCount (subListTruncWalk maxN true l ns nd none) ≤ maxN := by
  cases l with
  | nil => simp [subListTruncWalk, valueCount]
  | cons y ys =>
    rw [subListTruncWalk.eq_def]
    dsimp only []
    rw [if_neg (by simp; omega)]
    have := subListTruncWalk_changes maxN hm ys (ns + 1) 1 y.value hm
    simp only [valueCount]
    omega

lemma valueRuns_aux {α : Type} [LinearOrder α] :
    ∀ (ys : List (Substructure α)) (pv : α),
      (∀ y ∈ ys, y.value ≤ pv) →
      List.Pairwise (fun a b : Substructure α => b.value ≤ a.value) ys →
      ((pv :: ys.map fun y => y.value).dedup).length
        = 1 + valueChanges pv ys := by
  intro ys
  induction ys with
  | nil => intro pv _ _; simp [valueChanges]
  | cons y ys ih =>
    intro pv hub hs
    rcases List.pairwise_cons.1 hs with ⟨hy, hst⟩
    by_cases h : pv = y.value
    · have hm : pv ∈ (y :: ys).map fun y => y.value := by
        simp [h]
      rw [List.dedup_cons_of_mem hm]
      have := ih y.value hy hst
      simp only [List.map_cons] at this ⊢
      rw [this]
      simp [valueChanges, h]
    · have hlt : ∀ z ∈ ys, z.value < pv := by
        intro z hz
        have h1 : z.value ≤ y.value := hy z hz
        have h2 : y.value ≤ pv := hub y (List.mem_cons_self y ys)
        have h3 : y.value ≠ pv := fun hc => h hc.symm
        exact lt_of_le_of_lt h1 (lt_of_le_of_ne h2 h3)
      have hnm : pv ∉ (y :: ys).map fun y => y.value := by
        simp only [List.map_cons, List.mem_cons, List.mem_map]
        rintro (hc | ⟨z, hz, hzc⟩)
        · exact h hc
        · exact absurd hzc (ne_of_lt (hlt z hz))
      rw [List.dedup_cons_of_not_mem hnm, List.length_cons]
      have := ih y.value hy hst
      simp only [List.map_cons] at this ⊢
      rw [this]
      simp [valueChanges, h]
      omega

lemma valueCount_eq_dedup {α : Type} [LinearOrder α]
    (l : List (Substructure α))
    (hs : List.Pairwise (fun a b : Substructure α => b.value ≤ a.value) l) :
    ((l.map fun y => y.value).dedup).length = valueCount l := by
  cases l with
  | nil => simp [valueCount]
  | cons y ys =>
    rcases List.pairwise_cons.1 hs with ⟨hy, hst⟩
    rw [List.map_cons]
    rw [valueRuns_aux ys y.value hy hst]
    simp [valueCount]

lemma dropWhile_value_lt {α : Type} [LinearOrder α] (s : Substructure α) :
    ∀ (l : List (Substructure α)),
      List.Pairwise (fun a b : Substructure α => b.value ≤ a.value) l →
      ∀ b ∈ l.dropWhile (fun x => decide (s.value ≤ x.value)),
        b.value < s.value := by
  intro l
  induction l with
  | nil => intro _ b hb; simp at hb
  | cons x xs ih =>
    intro hs b hb
    rcases List.pairwise_cons.1 hs with ⟨hx, hst⟩
    rw [List.dropWhile_cons] at hb
    by_cases hp : s.value ≤ x.value
    · rw [if_pos (by simpa using hp)] at hb
      exact ih hst b hb
    · rw [if_neg (by simpa using hp)] at hb
      rcases List.mem_cons.1 hb with rfl | hbm
      · exact not_le.1 hp
      · exact lt_of_le_of_lt (hx b hbm) (not_le.1 hp)

lemma insertAfterTies_sorted {α : Type} [LinearOrder α] (s : Substructure α)
    (l : List (Substructure α))
    (hs : List.Pairwise (fun a b : Substructure α => b.value ≤ a.value) l) :
    List.Pairwise (fun a b : Substructure α => b.value ≤ a.value)
      (insertAfterTies s l) := by
  unfold insertAfterTies
  rw [List.pairwise_append]
  refine ⟨hs.sublist (List.takeWhile_sublist _), ?_, ?_⟩
  · rw [List.pairwise_cons]
    refine ⟨fun b hb => le_of_lt (dropWhile_value_lt s l hs b hb),
      hs.sublist (List.dropWhile_sublist _)⟩
  · intro a ha b hb
    have hap : s.value ≤ a.value := by
      have := List.mem_takeWhile_imp ha
      simpa using this
    rcases List.mem_cons.1 hb with rfl | hbm
    · exact hap
    · exact le_trans (le_of_lt (dropWhile_value_lt s l hs b hbm)) hap

lemma mem_insertAfterTies {α : Type} [LinearOrder α] (s x : Substructure α)
    (l : List (Substructure α)) (hx : x ∈ insertAfterTies s l) :
    x = s ∨ x ∈ l := by
  unfold insertAfterTies at hx
  rcases List.mem_append.1 hx with h1 | h2
  · exact Or.inr ((List.takeWhile_sublist _).mem h1)
  · rcases List.mem_cons.1 h2 with rfl | h3
    · exact Or.inl rfl
    · exact Or.inr ((List.dropWhile_sublist _).mem h3)

lemma subListDupCheck_iff {α : Type} [LinearOrder α]
    (inexact : Graph → Graph → ℚ) (s : Substructure α) :
    ∀ (l : List (Substructure α)),
      List.Pairwise (fun a b : Substructure α => b.value ≤ a.value) l →
      (subListDupCheck inexact s l = true ↔
        ∃ x ∈ l, x.value = s.value ∧
          GraphMatch inexact x.definition s.definition 0 = true) := by
  intro l
  induction l with
  | nil =>
    intro _
    rw [show subListDupCheck inexact s ([] : List (Substructure α)) = false
      from rfl]
    constructor
    · intro h; exact absurd h (by decide)
    · rintro ⟨x, hx, -⟩; exact absurd hx (List.not_mem_nil x)
  | cons y ys ih =>
    intro hs
    rcases List.pairwise_cons.1 hs with ⟨hy, hst⟩
    rw [subListDupCheck]
    by_cases hge : y.value ≥ s.value
    · rw [if_pos hge]
      by_cases hdup : y.value = s.value ∧
          GraphMatch inexact y.definition s.definition 0 = true
      · rw [if_pos hdup]
        exact iff_of_true rfl ⟨y, List.mem_cons_self y ys, hdup⟩
      · rw [if_neg hdup]
        rw [ih hst]
        constructor
        · rintro ⟨x, hx, hxp⟩
          exact ⟨x, List.mem_cons_of_mem y hx, hxp⟩
        · rintro ⟨x, hx, hxp⟩
          rcases List.mem_cons.1 hx with rfl | hxm
          · exact absurd hxp hdup
          · exact ⟨x, hxm, hxp⟩
    · rw [if_neg hge]
      refine iff_of_false (by decide) ?_
      rintro ⟨x, hx, hxv, -⟩
      rcases List.mem_cons.1 hx with rfl | hxm
      · exact hge (ge_of_eq hxv)
      · exact absurd (hxv ▸ hy x hxm) (not_le.1 (by simpa using hge)).not_le

/-- C6: on a list sorted by decreasing value and conforming to the bounds,
SubListInsert (i) keeps the output sorted, (ii) rejects exactly the subs
for which some equal-valued entry's definition graph-matches at threshold
0 (dropping the new sub and leaving the list unchanged), (iii) otherwise
produces a prefix of the list with the new sub spliced in after all
equal-valued entries (ties keep insertion order), the whole splice when
max = 0 (unbounded), and (iv) enforces at most max entries
(valueBased = false) or at most max distinct values (valueBased = true)
when max > 0. -/
theorem SubListInsert_spec {α : Type} [LinearOrder α]
    (inexact : Graph → Graph → ℚ) (s : Substructure α)
    (l : List (Substructure α)) (maxN : Nat) (vb : Bool)
    (hs : List.Pairwise (fun a b : Substructure α => b.value ≤ a.value) l) :
    List.Pairwise (fun a b : Substructure α => b.value ≤ a.value)
        (SubListInsert inexact s l maxN vb)
    ∧ (subListDupCheck inexact s l = true ↔
        ∃ x ∈ l, x.value = s.value ∧
          GraphMatch inexact x.definition s.definition 0 = true)
    ∧ (subListDupCheck inexact s l = true →
        SubListInsert inexact s l maxN vb = l)
    ∧ (subListDupCheck inexact s l = false →
        ∃ t, insertAfterTies s l = SubListInsert inexact s l maxN vb ++ t)
    ∧ (maxN = 0 → subListDupCheck inexact s l = false →
        SubListInsert inexact s l maxN vb = insertAfterTies s l)
    ∧ (0 < maxN → vb = false → l.length ≤ maxN →
        (SubListInsert inexact s l maxN vb).length ≤ maxN)
    ∧ (0 < maxN → vb = true →
        ((l.map fun y => y.value).dedup).length ≤ maxN →
        (((SubListInsert inexact s l maxN vb).map fun y =>
          y.value).dedup).length ≤ maxN) := by
  have heq := SubListInsert_eq inexact s l maxN vb
  by_cases hnil : l = []
  · subst hnil
    have hout : SubListInsert inexact s [] maxN vb = [s] := by
      rw [heq]
      simp
    have hdup0 : subListDupCheck inexact s ([] : List (Substructure α))
        = false := rfl
    have hiat : insertAfterTies s ([] : List (Substructure α)) = [s] := rfl
    refine ⟨?_, ?_, ?_, ?_, ?_, ?_, ?_⟩
    · rw [hout]; exact List.pairwise_singleton _ s
    · exact subListDupCheck_iff inexact s [] hs
    · intro h
      rw [hdup0] at h
      exact absurd h (by decide)
    · intro _
      exact ⟨[], by rw [hout, hiat, List.append_nil]⟩
    · intro _ _
      rw [hout, hiat]
    · intro hm _ _
      rw [hout]
      simpa using hm
    · intro hm _ _
      rw [hout]
      simpa using hm
  · by_cases hdup : subListDupCheck inexact s l = true
    · have hout : SubListInsert inexact s l maxN vb = l := by
        rw [heq, if_neg hnil, if_pos hdup]
      refine ⟨?_, ?_, ?_, ?_, ?_, ?_, ?_⟩
      · rw [hout]; exact hs
      · exact subListDupCheck_iff inexact s l hs
      · intro _; exact hout
      · intro h; rw [hdup] at h; exact absurd h (by decide)
      · intro _ h; rw [hdup] at h; exact absurd h (by decide)
      · intro _ _ hlen; rw [hout]; exact hlen
      · intro _ _ hcnt; rw [hout]; exact hcnt
    · have hout : SubListInsert inexact s l maxN vb
          = subListTruncWalk maxN vb (insertAfterTies s l) 0 0 none := by
        rw [heq, if_neg hnil, if_neg hdup]
      rcases subListTruncWalk_initial maxN vb (insertAfterTies s l) 0 0 none
        with ⟨t, ht⟩
      have hsIAT := insertAfterTies_sorted s l hs
      have hsorted : List.Pairwise
          (fun a b : Substructure α => b.value ≤ a.value)
          (SubListInsert inexact s l maxN vb) := by
        rw [hout]
        have h2 : List.Pairwise
            (fun a b : Substructure α => b.value ≤ a.value)
            (subListTruncWalk maxN vb (insertAfterTies s l) 0 0 none ++ t) :=
          ht ▸ hsIAT
        exact h2.sublist (List.sublist_append_left _ t)
      refine ⟨hsorted, ?_, ?_, ?_, ?_, ?_, ?_⟩
      · exact subListDupCheck_iff inexact s l hs
      · intro h; exact absurd h (by simp [hdup])
      · intro _
        exact ⟨t, by rw [hout, ← ht]⟩
      · intro h0 _
        subst h0
        rw [hout, subListTruncWalk_max_zero]
      · intro hm hvb _
        rw [hout, hvb]
        have := subListTruncWalk_length maxN hm (insertAfterTies s l) 0 0
          none
        omega
      · intro hm hvb _
        rw [hout, hvb] at hsorted ⊢
        rw [valueCount_eq_dedup _ hsorted]
        exact subListTruncWalk_valueCount maxN hm _ 0 0

theorem SubListInsert_spec_witness :
    List.Pairwise (fun a b : Substructure ℚ => b.value ≤ a.value)
        subsSorted ∧
    (List.Pairwise (fun a b : Substructure ℚ => b.value ≤ a.value)
        (SubListInsert (fun _ _ => 1) subNew subsSorted 2 false)
    ∧ (subListDupCheck (fun _ _ => 1) subNew subsSorted = true ↔
        ∃ x ∈ subsSorted, x.value = subNew.value ∧
          GraphMatch (fun _ _ => 1) x.definition subNew.definition 0 = true)
    ∧ (subListDupCheck (fun _ _ => 1) subNew subsSorted = true →
        SubListInsert (fun _ _ => 1) subNew subsSorted 2 false = subsSorted)
    ∧ (subListDupCheck (fun _ _ => 1) subNew subsSorted = false →
        ∃ t, insertAfterTies subNew subsSorted
          = SubListInsert (fun _ _ => 1) subNew subsSorted 2 false ++ t)
    ∧ ((2 : Nat) = 0 →
        subListDupCheck (fun _ _ => 1) subNew subsSorted = false →
        SubListInsert (fun _ _ => 1) subNew subsSorted 2 false
          = insertAfterTies subNew subsSorted)
    ∧ ((0 : Nat) < 2 → false = false → subsSorted.length ≤ 2 →
        (SubListInsert (fun _ _ => 1) subNew subsSorted 2 false).length ≤ 2)
    ∧ ((0 : Nat) < 2 → false = true →
        ((subsSorted.map fun y => y.value).dedup).length ≤ 2 →
        (((SubListInsert (fun _ _ => 1) subNew subsSorted 2 false).map
          fun y => y.value).dedup).length ≤ 2)) :=
  ⟨by decide,
   SubListInsert_spec (fun _ _ => 1) subNew subsSorted 2 false (by decide)⟩

lemma mem_SubListInsert {α : Type} [LinearOrder α]
    (inexact : Graph → Graph → ℚ) (s : Substructure α)
    (l : List (Substructure α)) (maxN : Nat) (vb : Bool)
    (x : Substructure α) (hx : x ∈ SubListInsert inexact s l maxN vb) :
    x = s ∨ x ∈ l := by
  rw [SubListInsert_eq] at hx
  by_cases hnil : l = []
  · rw [if_pos hnil] at hx
    exact Or.inl (List.mem_singleton.1 hx)
  · rw [if_neg hnil] at hx
    by_cases hdup : subListDupCheck inexact s l = true
    · rw [if_pos hdup] at hx
      exact Or.inr hx
    · rw [if_neg hdup] at hx
      rcases subListTruncWalk_initial maxN vb (insertAfterTies s l) 0 0
        none with ⟨t, ht⟩
      have hx2 : x ∈ insertAfterTies s l := by
        rw [ht]
        exact List.mem_append_left t hx
      exact mem_insertAfterTies s x l hx2

lemma getInitialSubsLoop_spec {α : Type} [LinearOrder α]
    (ev : Substructure α → Substructure α) (inexact : Graph → Graph → ℚ)
    (v0 : α) (posGraph : Graph) (negGraph : Option Graph)
    (hev : ∀ s, (ev s).numInstances = s.numInstances ∧
      (ev s).definition = s.definition) :
    ∀ (n k : Nat) (used : List Nat) (subs : List (Substructure α)),
      (∀ j, j < k → (posGraph.vertex j).label ∈ used) →
      (∀ sub ∈ subs,
        2 ≤ sub.numInstances ∧ sub.definition.numVertices = 1 ∧
        sub.numInstances
          = labelOccurrences posGraph (sub.definition.vertex 0).label) →
      ∀ sub ∈ getInitialSubsLoop ev inexact v0 posGraph negGraph
          (List.range' k n) used subs,
        2 ≤ sub.numInstances ∧ sub.definition.numVertices = 1 ∧
        sub.numInstances
          = labelOccurrences posGraph (sub.definition.vertex 0).label := by
  intro n
  induction n with
  | zero =>
    intro k used subs _ hsubs sub hsub
    exact hsubs sub hsub
  | succ m ih =>
    intro k used subs hused hsubs sub hsub
    rw [List.range'_succ, getInitialSubsLoop] at hsub
    by_cases hmem : (posGraph.vertex k).label ∈ used
    · rw [if_pos hmem] at hsub
      exact ih (k + 1) used subs
        (fun j hj => by
          rcases Nat.lt_succ_iff_lt_or_eq.1 hj with h | h
          · exact hused j h
          · exact h ▸ hmem)
        hsubs sub hsub
    · rw [if_neg hmem] at hsub
      by_cases hcnt : 1 < (initialInstances posGraph k
          (posGraph.vertex k).label).length
      · rw [if_pos hcnt] at hsub
        refine ih (k + 1) _ _
          (fun j hj => by
            rcases Nat.lt_succ_iff_lt_or_eq.1 hj with h | h
            · exact List.mem_cons_of_mem _ (hused j h)
            · exact h ▸ List.mem_cons_self _ _)
          ?_ sub hsub
        intro x hx
        rcases mem_SubListInsert inexact _ _ 0 false x hx with rfl | hxm
        · have hocc : (initialInstances posGraph k
              (posGraph.vertex k).label).length
              = labelOccurrences posGraph (posGraph.vertex k).label := by
            unfold initialInstances labelOccurrences
            rw [List.length_map]
            congr 1
            apply List.filter_congr
            intro j hj
            simp only [decide_eq_decide]
            constructor
            · exact fun h => h.2
            · intro h
              refine ⟨?_, h⟩
              by_contra hlt
              exact hmem (h ▸ hused j (by omega))
          rcases hev ⟨⟨[⟨(posGraph.vertex k).label, VERTEX_UNMAPPED,
              false⟩], []⟩,
            initialInstances posGraph k (posGraph.vertex k).label,
            (initialInstances posGraph k (posGraph.vertex k).label).length,
            initialNegInstances negGraph (posGraph.vertex k).label,
            (initialNegInstances negGraph (posGraph.vertex k).label).length,
            v0, false, 0, 0, 0⟩ with ⟨hni, hdef⟩
          rw [hni, hdef]
          refine ⟨?_, rfl, ?_⟩
          · show 2 ≤ (initialInstances posGraph k
              (posGraph.vertex k).label).length
            omega
          · show (initialInstances posGraph k
                (posGraph.vertex k).label).length
              = labelOccurrences posGraph (posGraph.vertex k).label
            exact hocc
        · exact hsubs x hxm
      · rw [if_neg hcnt] at hsub
        exact ih (k + 1) _ subs
          (fun j hj => by
            rcases Nat.lt_succ_iff_lt_or_eq.1 hj with h | h
            · exact List.mem_cons_of_mem _ (hused j h)
            · exact h ▸ List.mem_cons_self _ _)
          hsubs sub hsub

/-- C8: every substructure GetInitialSubs returns is a one-vertex pattern
with at least two positive instances, and its instance count is exactly
the number of positive-graph vertices carrying its label — so candidates
are created only for labels occurring at least twice, and single-instance
one-vertex substructures are freed instead of inserted. -/
theorem GetInitialSubs_min_two_instances {α : Type} [LinearOrder α]
    (ev : Substructure α → Substructure α) (inexact : Graph → Graph → ℚ)
    (v0 : α) (posGraph : Graph) (negGraph : Option Graph)
    (hev : ∀ s, (ev s).numInstances = s.numInstances ∧
      (ev s).definition = s.definition)
    (sub : Substructure α)
    (hsub : sub ∈ GetInitialSubs ev inexact v0 posGraph negGraph) :
    2 ≤ sub.numInstances ∧ sub.definition.numVertices = 1 ∧
    sub.numInstances
      = labelOccurrences posGraph (sub.definition.vertex 0).label := by
  have h := getInitialSubsLoop_spec ev inexact v0 posGraph negGraph hev
    posGraph.numVertices 0 [] []
    (fun j hj => absurd hj (Nat.not_lt_zero j))
    (fun x hx => absurd hx (List.not_mem_nil x))
  rw [show List.range' 0 posGraph.numVertices = List.range
      posGraph.numVertices from (List.range_eq_range' _).symm] at h
  exact h sub hsub

theorem GetInitialSubs_min_two_instances_witness :
    subInitial ∈ GetInitialSubs (id : Substructure ℚ → Substructure ℚ)
        (fun _ _ => 1) (-1) gPosPair none ∧
    (2 ≤ subInitial.numInstances ∧
     subInitial.definition.numVertices = 1 ∧
     subInitial.numInstances
       = labelOccurrences gPosPair (subInitial.definition.vertex 0).label) :=
  ⟨by decide,
   GetInitialSubs_min_two_instances id (fun _ _ => 1) (-1) gPosPair none
     (fun _ => ⟨rfl, rfl⟩) subInitial (by decide)⟩

end Subdue
